import Mathlib

/-!
Shallow embedding of `src/components/QuizBuilder.tsx` (a browser quiz-authoring
component) and proofs about the claims of its specification.

The embedding models:
- decimal rendering of JavaScript numbers interpolated into template strings
  (used by the id stamps `question-I-T`),
- the pure array helper `reorder` (lines 34-39) via JavaScript `splice`
  semantics,
- the PDF text-extraction loop of `parsePdf` (lines 44-79),
- the response-processing tail of `generateQuizWithGPT` (lines 119-151):
  fenced-JSON extraction by the regular expression, the restamp-and-validate
  block, and the exact error messages thrown,
- the component state and its event handlers (`onDragEnd`, `handlePdfUpload`,
  `addQuestion`, `removeQuestion`, the field-edit handlers, `generateQuiz`).

External effects (the network call, `JSON.parse`, `Date.now()`, `Math.random`)
are passed in as explicit parameters, so every definition is executable.
-/

/-! ## Decimal rendering of JavaScript numbers

A template literal `${n}` renders a non-negative integer in decimal.  The
renderer is written with an explicit fuel argument so that it is structurally
recursive and evaluates inside the kernel; `natDec n` supplies fuel `n + 1`,
which always suffices because the number of digits of `n` is at most `n + 1`.
-/

def digitChar : Nat → Char
  | 0 => '0'
  | 1 => '1'
  | 2 => '2'
  | 3 => '3'
  | 4 => '4'
  | 5 => '5'
  | 6 => '6'
  | 7 => '7'
  | 8 => '8'
  | _ => '9'

def natDecCore : Nat → Nat → List Char
  | 0, _ => []
  | fuel + 1, n =>
    if n < 10 then [digitChar n]
    else natDecCore fuel (n / 10) ++ [digitChar (n % 10)]

def natDec (n : Nat) : List Char :=
  natDecCore (n + 1) n

def decVal (c : Char) : Nat := c.toNat - 48

def fromDec (l : List Char) : Nat :=
  l.foldl (fun a c => 10 * a + decVal c) 0

theorem digitChar_ne_dash (d : Nat) : digitChar d ≠ '-' := by
  unfold digitChar
  split <;> decide

theorem decVal_digitChar (d : Nat) (h : d < 10) : decVal (digitChar d) = d := by
  interval_cases d <;> decide

theorem natDecCore_ne_dash (fuel : Nat) :
    ∀ n, ∀ c ∈ natDecCore fuel n, c ≠ '-' := by
  induction fuel with
  | zero => intro n c hc; simp [natDecCore] at hc
  | succ fuel ih =>
    intro n c hc
    rw [natDecCore] at hc
    by_cases h : n < 10
    · simp [h] at hc
      subst hc
      exact digitChar_ne_dash n
    · simp [h] at hc
      rcases hc with hc | hc
      · exact ih (n / 10) c hc
      · subst hc
        exact digitChar_ne_dash (n % 10)

theorem natDec_ne_dash (n : Nat) : ∀ c ∈ natDec n, c ≠ '-' :=
  natDecCore_ne_dash (n + 1) n

theorem fromDec_append_one (l : List Char) (c : Char) :
    fromDec (l ++ [c]) = 10 * fromDec l + decVal c := by
  simp [fromDec, List.foldl_append]

theorem fromDec_natDecCore (fuel : Nat) :
    ∀ n, n < fuel → fromDec (natDecCore fuel n) = n := by
  induction fuel with
  | zero => intro n h; omega
  | succ fuel ih =>
    intro n h
    rw [natDecCore]
    by_cases h10 : n < 10
    · simp [h10, fromDec, decVal_digitChar n h10]
    · simp only [h10, if_false]
      rw [fromDec_append_one]
      have hdiv : n / 10 < fuel := by
        have h1 : n / 10 < n := Nat.div_lt_self (by omega) (by omega)
        omega
      rw [ih (n / 10) hdiv, decVal_digitChar (n % 10) (Nat.mod_lt n (by omega))]
      omega

theorem fromDec_natDec (n : Nat) : fromDec (natDec n) = n :=
  fromDec_natDecCore (n + 1) n (by omega)

theorem natDec_inj (a b : Nat) (h : natDec a = natDec b) : a = b := by
  have := congrArg fromDec h
  rwa [fromDec_natDec, fromDec_natDec] at this

/-- splitDash: a list of characters that contains a dash splits uniquely at
that dash as long as the parts before it are dash-free. -/
theorem splitDash :
    ∀ (a b c d : List Char), (∀ x ∈ a, x ≠ '-') → (∀ x ∈ b, x ≠ '-') →
      a ++ '-' :: c = b ++ '-' :: d → a = b ∧ c = d := by
  intro a
  induction a with
  | nil =>
    intro b c d _ hb h
    cases b with
    | nil => simpa using h
    | cons y ys =>
      simp at h
      exact absurd h.1.symm (hb y (by simp))
  | cons x xs ih =>
    intro b c d ha hb h
    cases b with
    | nil =>
      simp at h
      exact absurd h.1 (ha x (by simp))
    | cons y ys =>
      simp at h
      obtain ⟨hxy, hrest⟩ := h
      obtain ⟨h1, h2⟩ := ih ys c d (fun z hz => ha z (by simp [hz]))
        (fun z hz => hb z (by simp [hz])) hrest
      exact ⟨by simp [hxy, h1], h2⟩

/-! ## Question identifiers

`generateQuizWithGPT` (line 140) restamps generated questions with
`question-INDEX-TIMESTAMP`; `addQuestion` (line 202) stamps manual questions
with `question-TIMESTAMP-RANDOM` where RANDOM is the 9-character suffix drawn
from `Math.random().toString(36).substr(2, 9)`.  Timestamps (`Date.now()`) and
the random suffix are oracle parameters of the embedding.
-/

def questionDash : List Char := ("question-").data

def genIdChars (i t : Nat) : List Char :=
  questionDash ++ natDec i ++ '-' :: natDec t

def genId (i t : Nat) : String :=
  String.mk (genIdChars i t)

def manualIdChars (t : Nat) (r : String) : List Char :=
  questionDash ++ natDec t ++ '-' :: r.data

def manualId (t : Nat) (r : String) : String :=
  String.mk (manualIdChars t r)

theorem string_mk_inj (a b : List Char) (h : String.mk a = String.mk b) : a = b := by
  injection h

theorem genId_inj (i t j u : Nat) (h : genId i t = genId j u) : i = j ∧ t = u := by
  have hd := string_mk_inj _ _ h
  unfold genIdChars at hd
  have htail := @List.append_cancel_left _ questionDash _ _ hd
  obtain ⟨h1, h2⟩ := splitDash _ _ _ _ (natDec_ne_dash i) (natDec_ne_dash j) htail
  exact ⟨natDec_inj _ _ h1, natDec_inj _ _ h2⟩

/-! ## Data model (lines 13-28) -/

inductive QType where
  | courte
  | longue
  | note5
deriving DecidableEq

structure QuizQuestion where
  id : String
  title : String
  description : String
  type : QType
deriving DecidableEq

inductive Difficulty where
  | facile
  | moyen
  | difficile
deriving DecidableEq

structure QuizParams where
  difficulty : Difficulty
  questionCount : Int
deriving DecidableEq

structure QuizData where
  title : String
  questions : List QuizQuestion
deriving DecidableEq

/-! ## The `reorder` helper (lines 34-39)

JavaScript `splice` semantics on a copy of the list:
`result.splice(s, 1)` removes the element at index `s` (removing nothing when
`s` is out of range) and `result.splice(e, 0, x)` inserts `x` at index `e`,
clamping `e` to the array length.  `List.take`/`List.drop` clamp in exactly
the same way.  When `s` is out of range the destructured `removed` is
`undefined`; that case cannot arise from the drag-and-drop library (the source
index always points at an existing item) and is modelled as inserting
nothing. -/

def spliceRemove (l : List QuizQuestion) (i : Nat) : List QuizQuestion :=
  l.take i ++ l.drop (i + 1)

def spliceInsert (l : List QuizQuestion) (i : Nat) (x : QuizQuestion) : List QuizQuestion :=
  l.take i ++ x :: l.drop i

def reorder (list : List QuizQuestion) (startIndex endIndex : Nat) : List QuizQuestion :=
  match list[startIndex]? with
  | some removed => spliceInsert (spliceRemove list startIndex) endIndex removed
  | none => spliceRemove list startIndex

theorem spliceInsert_perm (l : List QuizQuestion) (e : Nat) (x : QuizQuestion) :
    List.Perm (spliceInsert l e x) (x :: l) := by
  unfold spliceInsert
  have h := @List.perm_middle _ x (l.take e) (l.drop e)
  rwa [List.take_append_drop] at h

theorem take_cons_drop_of_getElem (l : List QuizQuestion) (s : Nat)
    (x : QuizQuestion) (hx : l[s]? = some x) :
    l = l.take s ++ x :: l.drop (s + 1) := by
  have hs : s < l.length := by
    by_contra hcon
    rw [List.getElem?_eq_none (by omega)] at hx
    exact Option.noConfusion hx
  have hget : l[s] = x := by
    have := List.getElem?_eq_getElem hs
    rw [hx] at this
    exact (Option.some_inj.mp this).symm
  have hdrop : l.drop s = x :: l.drop (s + 1) := by
    rw [List.drop_eq_getElem_cons hs, hget]
  conv_lhs => rw [← List.take_append_drop s l]
  rw [hdrop]

theorem reorder_perm (l : List QuizQuestion) (s e : Nat) :
    List.Perm (reorder l s e) l := by
  unfold reorder
  cases hx : l[s]? with
  | none =>
    have hlen : l.length ≤ s := by
      simpa using List.getElem?_eq_none_iff.mp hx
    have h1 : l.take s = l := List.take_of_length_le hlen
    have h2 : l.drop (s + 1) = [] := List.drop_eq_nil_of_le (by omega)
    unfold spliceRemove
    rw [h1, h2, List.append_nil]
  | some x =>
    have h1 : List.Perm (spliceInsert (spliceRemove l s) e x)
        (x :: spliceRemove l s) := spliceInsert_perm _ _ _
    have h2 : List.Perm (x :: spliceRemove l s) l := by
      unfold spliceRemove
      conv_rhs => rw [take_cons_drop_of_getElem l s x hx]
      exact List.perm_middle.symm
    exact h1.trans h2

/-! ## PDF text extraction (lines 44-79)

`parsePdf` walks pages `1 .. numPages` in order; a parsed document is
modelled as the list of its pages, each page being the list of the `str`
fields of its text items.  For each page the items are joined with single
spaces and trimmed, and the page text plus a newline is appended to the
accumulator.  An empty accumulated text only triggers a console warning
(modelled by `parsePdfWarns`); `resolve(extractedText)` is reached in every
case, so the outcome is always `Except.ok`. -/

def pageText (items : List String) : String :=
  (String.intercalate (" ") items).trim

def extractedPdfText (pages : List (List String)) : String :=
  pages.foldl (fun acc p => acc ++ pageText p ++ ("\n")) ("")

def parsePdfWarns (pages : List (List String)) : Bool :=
  (extractedPdfText pages).trim = ("")

def parsePdfResult (pages : List (List String)) : Except Unit String :=
  Except.ok (extractedPdfText pages)

theorem string_append_empty_right (a : String) : a ++ ("") = a :=
  String.append_empty a

theorem string_join_acc (l : List String) :
    ∀ a : String, l.foldl (fun r s => r ++ s) a = a ++ String.join l := by
  induction l with
  | nil => intro a; simp [String.join, String.append_empty]
  | cons x xs ih =>
    intro a
    have hx : String.join (x :: xs) = x ++ String.join xs := by
      show (x :: xs).foldl (fun r s => r ++ s) ("") = x ++ String.join xs
      simp only [List.foldl_cons]
      rw [ih (("") ++ x), String.empty_append]
    simp only [List.foldl_cons]
    rw [ih (a ++ x), hx, String.append_assoc]

theorem string_join_cons (x : String) (xs : List String) :
    String.join (x :: xs) = x ++ String.join xs := by
  show (x :: xs).foldl (fun r s => r ++ s) ("") = x ++ String.join xs
  simp only [List.foldl_cons]
  rw [string_join_acc xs (("") ++ x), String.empty_append]

theorem extractedPdfText_acc (pages : List (List String)) :
    ∀ acc : String,
      pages.foldl (fun acc p => acc ++ pageText p ++ ("\n")) acc
        = acc ++ String.join (pages.map (fun p => pageText p ++ ("\n"))) := by
  induction pages with
  | nil => intro acc; simp [String.join, String.append_empty]
  | cons p ps ih =>
    intro acc
    simp only [List.foldl_cons, List.map_cons]
    rw [ih (acc ++ pageText p ++ ("\n")), string_join_cons]
    simp [String.append_assoc]

/-! ## The question-count change handler (lines 286-297)

The handler stores `parseInt(e.target.value, 10) || 5` into
`quizParams.questionCount`.  `jsParseIntTen` models `parseInt(s, 10)`:
leading whitespace is skipped, an optional sign is read, and the longest
leading run of decimal digits is converted; if that run is empty the result
is `NaN`, modelled as `none`. -/

def parseDigits (l : List Char) : Option Nat :=
  let ds := l.takeWhile (fun c => c.isDigit)
  if ds.isEmpty then none else some (fromDec ds)

def jsParseIntTen (s : String) : Option Int :=
  match s.data.dropWhile (fun c => c.isWhitespace) with
  | '-' :: rest => (parseDigits rest).map (fun n => -(n : Int))
  | '+' :: rest => (parseDigits rest).map (fun n => (n : Int))
  | rest => (parseDigits rest).map (fun n => (n : Int))

def handleQuestionCountChange (input : String) : Int :=
  match jsParseIntTen input with
  | none => 5
  | some v => if v = 0 then 5 else v

/-! ## Component state and event handlers (lines 154-235) -/

structure ComponentState where
  gptToken : String
  pdfText : String
  pdfName : String
  quizParams : QuizParams
  questions : List QuizQuestion
  quizTitle : String
  loading : Bool
deriving DecidableEq

/-- DropResult models the payload handed to `onDragEnd` by the drag-and-drop
library: a source index and an optional destination index (absent when the
item was dropped outside every droppable area). -/
structure DropResult where
  sourceIndex : Nat
  destination : Option Nat
deriving DecidableEq

/-- onDragEnd (lines 170-178): with no destination the handler returns
early; otherwise it removes the dragged item at the source index and
reinserts it at the destination index (the same splice sequence as
`reorder`). -/
def onDragEnd (st : ComponentState) (result : DropResult) : ComponentState :=
  match result.destination with
  | none => st
  | some dest => { st with questions := reorder st.questions result.sourceIndex dest }

/-- handlePdfUpload (lines 183-195): the event carries an optional file,
modelled as its name together with the outcome of `parsePdf` on it.  With no
file the handler returns early.  Otherwise it first stores the file name,
then attempts the parse; on success it stores the text, on failure it only
shows an alert. -/
def handlePdfUpload (st : ComponentState)
    (ev : Option (String × Except Unit String)) : ComponentState :=
  match ev with
  | none => st
  | some (nm, res) =>
    match res with
    | Except.ok text => { st with pdfName := nm, pdfText := text }
    | Except.error _ => { st with pdfName := nm }

/-- addQuestion (lines 200-208), stamped from the `Date.now()` timestamp `t`
and the `Math.random` suffix `r`. -/
def addQuestion (st : ComponentState) (t : Nat) (r : String) : ComponentState :=
  { st with questions := st.questions ++
      [{ id := manualId t r, title := ("Nouvelle question"),
         description := (""), type := QType.courte }] }

/-- removeQuestion (lines 213-215). -/
def removeQuestion (st : ComponentState) (qid : String) : ComponentState :=
  { st with questions := st.questions.filter (fun q => q.id ≠ qid) }

/-- generateQuiz (lines 220-235): with a missing token or missing PDF text it
alerts and returns early.  Otherwise `loading` is set, `generateQuizWithGPT`
runs (its outcome is the `outcome` parameter), on success the questions and
the title are replaced, on failure only an alert is shown, and the `finally`
block clears `loading`. -/
def generateQuiz (st : ComponentState) (outcome : Except String QuizData) : ComponentState :=
  if st.gptToken = ("") ∨ st.pdfText = ("") then st
  else
    match outcome with
    | Except.ok quiz =>
      { st with loading := false, questions := quiz.questions, quizTitle := quiz.title }
    | Except.error _ => { st with loading := false }

/-! ## JSON values and the response-processing tail of `generateQuizWithGPT`

`Json` models the values `JSON.parse` can produce (numbers as integers; the
fractional part plays no role in any behaviour claimed here).  Property
access, array detection, truthiness and object spread follow JavaScript
semantics:
- reading a property of `null` throws a `TypeError`,
- `.map` is only a function on arrays,
- object literals keep the last binding of a duplicated key,
- `{...q}` of a non-object contributes no fields. -/

inductive Json where
  | null
  | bool (b : Bool)
  | num (n : Int)
  | str (s : String)
  | arr (elems : List Json)
  | obj (fields : List (String × Json))

/-- lookupField models JavaScript property lookup on an object built from a
field list in which later bindings shadow earlier ones. -/
def lookupField : List (String × Json) → String → Option Json
  | [], _ => none
  | (k0, v) :: fs, k =>
    match lookupField fs k with
    | some v2 => some v2
    | none => if k0 = k then some v else none

/-- jsFalsy models JavaScript falsiness of `quiz.title` (line 147): absent
(`undefined`), `null`, `false`, `0` and the empty string are falsy. -/
def jsFalsy : Option Json → Bool
  | none => true
  | some Json.null => true
  | some (Json.bool b) => !b
  | some (Json.num n) => n = 0
  | some (Json.str s) => s = ("")
  | some (Json.arr _) => false
  | some (Json.obj _) => false

def isJsonArray : Option Json → Bool
  | some (Json.arr _) => true
  | _ => false

/-- spreadFields models `{...q}`: the own fields of an object, nothing for a
primitive. -/
def spreadFields : Json → List (String × Json)
  | Json.obj fs => fs
  | _ => []

/-- restampQuestions models `quiz.questions.map((q, index) => ({...q, id:
question-INDEX-NOW}))` (lines 138-141); `stamps i` is the value of
`Date.now()` observed by the callback at index `i`. -/
def restampQuestions (stamps : Nat → Nat) : Nat → List Json → List Json
  | _, [] => []
  | i, q :: qs =>
    Json.obj (spreadFields q ++ [(("id"), Json.str (genId i (stamps i)))])
      :: restampQuestions stamps (i + 1) qs

def malformedMsg : String := "Le JSON GPT est mal formaté."

def missingFieldsMsg : String :=
  "Le JSON GPT ne contient pas \x27title\x27 ou \x27questions\x27."

def invalidFormatMsg : String := "Format de réponse GPT invalide"

/-- processParsedQuiz models lines 134-151 applied to the value produced by
`JSON.parse`: the restamping map runs first, inside the `try` block, so any
`TypeError` it raises (reading a property of `null`, calling `.map` on a
value that is not an array, including `undefined` when the `questions` field
is absent) is caught and rethrown as the malformed-JSON error.  Only when the
map succeeded does the `!quiz.title || !Array.isArray(quiz.questions)`
validation run. -/
def processParsedQuiz (j : Json) (stamps : Nat → Nat) : Except String Json :=
  match j with
  | Json.obj fs =>
    match lookupField fs ("questions") with
    | some (Json.arr xs) =>
      if jsFalsy (lookupField (fs ++ [(("questions"), Json.arr (restampQuestions stamps 0 xs))]) ("title"))
          || !isJsonArray (lookupField (fs ++ [(("questions"), Json.arr (restampQuestions stamps 0 xs))]) ("questions"))
      then Except.error missingFieldsMsg
      else Except.ok (Json.obj (fs ++ [(("questions"), Json.arr (restampQuestions stamps 0 xs))]))
    | _ => Except.error malformedMsg
  | _ => Except.error malformedMsg

/-! ### Fenced-JSON extraction (lines 128-132)

`content.match(/```json\n([\s\S]*?)\n```/)` finds the leftmost substring of
the shape OPEN + MID + CLOSE with OPEN the eight characters of a fenced json
opener and CLOSE newline-plus-three-backticks, MID lazily as short as
possible.  `splitFirst pat l` splits `l` around the first occurrence of
`pat`. -/

def fenceOpen : List Char := ("```json\n").data

def fenceClose : List Char := ("\n```").data

def splitFirst (pat : List Char) : List Char → Option (List Char × List Char)
  | [] => if pat.isPrefixOf ([] : List Char) then some ([], []) else none
  | c :: cs =>
    if pat.isPrefixOf (c :: cs) then some ([], (c :: cs).drop pat.length)
    else
      match splitFirst pat cs with
      | some pr => some (c :: pr.1, pr.2)
      | none => none

def extractFenced (content : List Char) : Option (List Char) :=
  match splitFirst fenceOpen content with
  | none => none
  | some pr =>
    match splitFirst fenceClose pr.2 with
    | none => none
    | some qr => some qr.1

/-- generateQuizFromContent models lines 123-151 of `generateQuizWithGPT`:
the processing of the message content of a successful HTTP response.  (The
earlier failure modes of the function — missing token, non-2xx response — are
thrown before this code runs.)  `parse` stands for `JSON.parse`, returning
`none` on a syntax error, which the `catch` turns into the malformed-JSON
error. -/
def generateQuizFromContent (content : String) (parse : String → Option Json)
    (stamps : Nat → Nat) : Except String Json :=
  match extractFenced content.data with
  | none => Except.error invalidFormatMsg
  | some mid =>
    match parse (String.mk mid) with
    | none => Except.error malformedMsg
    | some j => processParsedQuiz j stamps

/-! ## Question-list operation traces

For the identifier-uniqueness invariant the question list is driven by the
operations the component exposes: manual add, delete, the three field-edit
handlers (lines 359-398 of the component markup), drag reorder and
replacement by a successful generation.  `restampQ` is the typed image of
`restampQuestions`: the component stores `quiz.questions` after the ids were
restamped to `question-INDEX-NOW`. -/

inductive EditField where
  | title (v : String)
  | description (v : String)
  | qtype (v : QType)

def setField (q : QuizQuestion) : EditField → QuizQuestion
  | EditField.title v => { q with title := v }
  | EditField.description v => { q with description := v }
  | EditField.qtype v => { q with type := v }

inductive QuizOp where
  | add (t : Nat) (r : String)
  | remove (qid : String)
  | edit (qid : String) (f : EditField)
  | drag (src : Nat) (dest : Option Nat)
  | generate (raw : List QuizQuestion) (stamps : Nat → Nat)

def manualQuestion (t : Nat) (r : String) : QuizQuestion :=
  { id := manualId t r, title := ("Nouvelle question"),
    description := (""), type := QType.courte }

def restampQ (stamps : Nat → Nat) : Nat → List QuizQuestion → List QuizQuestion
  | _, [] => []
  | i, q :: qs => { q with id := genId i (stamps i) } :: restampQ stamps (i + 1) qs

def applyOp (l : List QuizQuestion) : QuizOp → List QuizQuestion
  | QuizOp.add t r => l ++ [manualQuestion t r]
  | QuizOp.remove qid => l.filter (fun q => q.id ≠ qid)
  | QuizOp.edit qid f => l.map (fun q => if q.id = qid then setField q f else q)
  | QuizOp.drag src dest =>
    match dest with
    | none => l
    | some e => reorder l src e
  | QuizOp.generate raw stamps => restampQ stamps 0 raw

def runOps (ops : List QuizOp) : List QuizQuestion :=
  ops.foldl applyOp []

def idsOf (l : List QuizQuestion) : List String :=
  l.map QuizQuestion.id

/-- opFresh holds of an operation when, if it is a manual add, the id it
stamps is not already in the list; every other operation is vacuously
fresh. -/
def opFresh (l : List QuizQuestion) : QuizOp → Bool
  | QuizOp.add t r => l.all (fun q => q.id ≠ manualId t r)
  | _ => true

/-- freshAdds records, along a trace, that each manual add drew a clock/RNG
stamp whose resulting id is not already in the list — the freshness the code
gets from `Date.now()` and `Math.random` but never checks. -/
def freshAdds : List QuizQuestion → List QuizOp → Bool
  | _, [] => true
  | l, op :: ops => opFresh l op && freshAdds (applyOp l op) ops

/-! ## A store-level rendering of `reorder` for the aliasing claim

JavaScript arrays are heap references; `Array.from(list)` allocates a fresh
array and the two `splice` calls mutate only that fresh array.  The store is
a list of arrays indexed by allocation order; `reorderOnHeap` performs the
body of `reorder` against the store and returns the reference it allocated
for `result`. -/

def readArr (σ : List (List QuizQuestion)) (r : Nat) : List QuizQuestion :=
  (σ[r]?).getD []

def writeArr (σ : List (List QuizQuestion)) (r : Nat) (v : List QuizQuestion) :
    List (List QuizQuestion) :=
  σ.set r v

def reorderOnHeap (σ : List (List QuizQuestion)) (a s e : Nat) :
    List (List QuizQuestion) × Nat :=
  let σ1 := σ ++ [readArr σ a]
  let r := σ.length
  let removed := (readArr σ1 r)[s]?
  let σ2 := writeArr σ1 r (spliceRemove (readArr σ1 r) s)
  let σ3 :=
    match removed with
    | some x => writeArr σ2 r (spliceInsert (readArr σ2 r) e x)
    | none => σ2
  (σ3, r)

/-! ## Lemmas: identifier uniqueness along operation traces -/

theorem setField_id (q : QuizQuestion) (f : EditField) : (setField q f).id = q.id := by
  cases f <;> rfl

theorem restampQ_id_mem (stamps : Nat → Nat) :
    ∀ (qs : List QuizQuestion) (i : Nat) (q : QuizQuestion),
      q ∈ restampQ stamps i qs → ∃ j, i ≤ j ∧ q.id = genId j (stamps j) := by
  intro qs
  induction qs with
  | nil => intro i q hq; simp [restampQ] at hq
  | cons x xs ih =>
    intro i q hq
    rw [restampQ] at hq
    rcases List.mem_cons.mp hq with hq | hq
    · exact ⟨i, le_refl i, by rw [hq]⟩
    · obtain ⟨j, hj, hid⟩ := ih (i + 1) q hq
      exact ⟨j, by omega, hid⟩

theorem restampQ_ids_nodup (stamps : Nat → Nat) :
    ∀ (qs : List QuizQuestion) (i : Nat), (idsOf (restampQ stamps i qs)).Nodup := by
  intro qs
  induction qs with
  | nil => intro i; simp [restampQ, idsOf]
  | cons x xs ih =>
    intro i
    rw [restampQ]
    unfold idsOf
    rw [List.map_cons]
    refine List.nodup_cons.mpr ⟨?_, ih (i + 1)⟩
    intro hmem
    obtain ⟨q, hq, hid⟩ := List.mem_map.mp hmem
    obtain ⟨j, hj, hidj⟩ := restampQ_id_mem stamps xs (i + 1) q hq
    rw [hidj] at hid
    have := (genId_inj _ _ _ _ hid).1
    omega

theorem applyOp_nodup (l : List QuizQuestion) (op : QuizOp)
    (hnd : (idsOf l).Nodup)
    (hfresh : ∀ t r, op = QuizOp.add t r → manualId t r ∉ idsOf l) :
    (idsOf (applyOp l op)).Nodup := by
  cases op with
  | add t r =>
    have hx : manualId t r ∉ idsOf l := hfresh t r rfl
    unfold applyOp idsOf
    rw [List.map_append]
    have hcons : (manualId t r :: l.map QuizQuestion.id).Nodup :=
      List.nodup_cons.mpr ⟨hx, hnd⟩
    exact (List.perm_append_singleton _ _).symm.nodup hcons
  | remove qid =>
    have hsub : List.Sublist (idsOf (l.filter (fun q => q.id ≠ qid))) (idsOf l) :=
      (List.filter_sublist l).map QuizQuestion.id
    exact hnd.sublist hsub
  | edit qid f =>
    have heq : idsOf (applyOp l (QuizOp.edit qid f)) = idsOf l := by
      unfold applyOp idsOf
      rw [List.map_map]
      refine List.map_congr_left ?_
      intro q _
      by_cases h : q.id = qid <;> simp [h, setField_id]
    rw [heq]; exact hnd
  | drag src dest =>
    cases dest with
    | none => exact hnd
    | some e =>
      have hperm : List.Perm (idsOf (reorder l src e)) (idsOf l) :=
        (reorder_perm l src e).map QuizQuestion.id
      exact hperm.symm.nodup hnd
  | generate raw stamps => exact restampQ_ids_nodup stamps raw 0

theorem freshAdds_run (ops : List QuizOp) :
    ∀ l, (idsOf l).Nodup → freshAdds l ops = true →
      (idsOf (ops.foldl applyOp l)).Nodup := by
  induction ops with
  | nil => intro l hnd _; simpa using hnd
  | cons op ops ih =>
    intro l hnd hfresh
    rw [List.foldl_cons]
    rw [freshAdds, Bool.and_eq_true] at hfresh
    refine ih _ (applyOp_nodup l op hnd ?_) hfresh.2
    intro t r heq hmem
    subst heq
    have h1 := hfresh.1
    rw [opFresh] at h1
    obtain ⟨q, hq, hid⟩ := List.mem_map.mp hmem
    have hall := List.all_eq_true.mp h1 q hq
    simp at hall
    exact hall hid

/-! ## Lemmas: insertion, first-occurrence search, field lookup -/

theorem insertIdx_eq_take_cons_drop (x : QuizQuestion) :
    ∀ (e : Nat) (l : List QuizQuestion), e ≤ l.length →
      List.insertIdx e x l = l.take e ++ x :: l.drop e := by
  intro e
  induction e with
  | zero => intro l _; simp [List.insertIdx_zero]
  | succ e ih =>
    intro l hl
    cases l with
    | nil => simp at hl
    | cons a as =>
      rw [List.insertIdx_succ_cons, ih as (by simpa using hl)]
      simp

theorem isPrefixOf_iff_exists (pat : List Char) :
    ∀ l : List Char, pat.isPrefixOf l = true ↔ ∃ t, l = pat ++ t := by
  induction pat with
  | nil => intro l; simp [List.isPrefixOf]
  | cons p ps ih =>
    intro l
    cases l with
    | nil => simp [List.isPrefixOf]
    | cons c cs =>
      rw [List.isPrefixOf, Bool.and_eq_true, ih cs]
      constructor
      · rintro ⟨hpc, t, ht⟩
        have hpc2 : p = c := beq_iff_eq.mp hpc
        exact ⟨t, by rw [ht, hpc2]; rfl⟩
      · rintro ⟨t, ht⟩
        simp at ht
        exact ⟨beq_iff_eq.mpr ht.1.symm, t, ht.2⟩

theorem splitFirst_eq_some (pat : List Char) :
    ∀ (l a b : List Char), splitFirst pat l = some (a, b) →
      l = a ++ (pat ++ b) := by
  intro l
  induction l with
  | nil =>
    intro a b h
    rw [splitFirst] at h
    split at h
    · rename_i hp
      obtain ⟨t, ht⟩ := (isPrefixOf_iff_exists pat []).mp hp
      simp at ht
      simp at h
      obtain ⟨ha, hb⟩ := h
      subst ha; subst hb
      simp [ht.1]
    · exact Option.noConfusion h
  | cons c cs ih =>
    intro a b h
    rw [splitFirst] at h
    split at h
    · rename_i hp
      obtain ⟨t, ht⟩ := (isPrefixOf_iff_exists pat (c :: cs)).mp hp
      simp at h
      obtain ⟨ha, hb⟩ := h
      subst ha; subst hb
      have hdrop : (c :: cs).drop pat.length = t := by
        rw [ht]; exact List.drop_left pat t
      rw [hdrop, ht]
      simp
    · rename_i hp
      cases hrec : splitFirst pat cs with
      | none => rw [hrec] at h; exact Option.noConfusion h
      | some pr =>
        obtain ⟨u, w⟩ := pr
        rw [hrec] at h
        simp at h
        obtain ⟨ha, hb⟩ := h
        subst ha; subst hb
        have hcs := ih u w hrec
        rw [List.cons_append]
        rw [← hcs]

theorem splitFirst_min (pat : List Char) :
    ∀ (l a b : List Char), splitFirst pat l = some (a, b) →
      ∀ x y, l = x ++ (pat ++ y) → a.length ≤ x.length := by
  intro l
  induction l with
  | nil =>
    intro a b h x y hxy
    rw [splitFirst] at h
    split at h
    · simp at h
      obtain ⟨ha, hb⟩ := h
      subst ha
      simp
    · exact Option.noConfusion h
  | cons c cs ih =>
    intro a b h x y hxy
    rw [splitFirst] at h
    split at h
    · simp at h
      obtain ⟨ha, hb⟩ := h
      subst ha
      simp
    · rename_i hp
      cases hrec : splitFirst pat cs with
      | none => rw [hrec] at h; exact Option.noConfusion h
      | some pr =>
        obtain ⟨u, w⟩ := pr
        rw [hrec] at h
        simp at h
        obtain ⟨ha, hb⟩ := h
        subst ha
        cases x with
        | nil =>
          exfalso
          apply hp
          exact (isPrefixOf_iff_exists pat (c :: cs)).mpr ⟨y, by simpa using hxy⟩
        | cons d xs =>
          simp at hxy
          have hle := ih u w hrec xs y hxy.2
          simp
          omega

theorem splitFirst_eq_none (pat : List Char) :
    ∀ (l : List Char), splitFirst pat l = none →
      ∀ x y, l ≠ x ++ (pat ++ y) := by
  intro l
  induction l with
  | nil =>
    intro h x y hxy
    rw [splitFirst] at h
    split at h
    · exact Option.noConfusion h
    · rename_i hp
      simp at hxy
      apply hp
      rw [hxy.2.1]
      simp [List.isPrefixOf]
  | cons c cs ih =>
    intro h x y hxy
    rw [splitFirst] at h
    split at h
    · exact Option.noConfusion h
    · rename_i hp
      cases hrec : splitFirst pat cs with
      | some pr => rw [hrec] at h; exact Option.noConfusion h
      | none =>
        cases x with
        | nil =>
          apply hp
          exact (isPrefixOf_iff_exists pat (c :: cs)).mpr ⟨y, by simpa using hxy⟩
        | cons d xs =>
          simp at hxy
          exact ih hrec xs y hxy.2

theorem lookupField_append_single_ne (k k2 : String) (v : Json) (h : k2 ≠ k) :
    ∀ fs : List (String × Json),
      lookupField (fs ++ [(k2, v)]) k = lookupField fs k := by
  intro fs
  induction fs with
  | nil => simp [lookupField, h]
  | cons p ps ih =>
    obtain ⟨k0, v0⟩ := p
    rw [List.cons_append, lookupField, ih, lookupField]

theorem lookupField_append_single_self (k : String) (v : Json) :
    ∀ fs : List (String × Json), lookupField (fs ++ [(k, v)]) k = some v := by
  intro fs
  induction fs with
  | nil => simp [lookupField]
  | cons p ps ih =>
    obtain ⟨k0, v0⟩ := p
    rw [List.cons_append, lookupField, ih]

/-! ## Lemmas: fenced-JSON extraction -/

theorem extractFenced_some_decomp (content mid : List Char)
    (h : extractFenced content = some mid) :
    ∃ a c, content = a ++ (fenceOpen ++ (mid ++ (fenceClose ++ c))) := by
  cases h1 : splitFirst fenceOpen content with
  | none => simp [extractFenced, h1] at h
  | some pr =>
    obtain ⟨u, w⟩ := pr
    cases h2 : splitFirst fenceClose w with
    | none => simp [extractFenced, h1, h2] at h
    | some qr =>
      obtain ⟨m, e⟩ := qr
      simp [extractFenced, h1, h2] at h
      subst h
      have hcw := splitFirst_eq_some fenceOpen content u w h1
      have hwd := splitFirst_eq_some fenceClose w m e h2
      exact ⟨u, e, by rw [hcw, hwd]⟩

theorem extractFenced_none_iff (content : List Char) :
    extractFenced content = none ↔
      ¬ ∃ a b c : List Char,
        content = a ++ (fenceOpen ++ (b ++ (fenceClose ++ c))) := by
  constructor
  · intro h hex
    obtain ⟨a, b, c, hd⟩ := hex
    cases h1 : splitFirst fenceOpen content with
    | none =>
      exact splitFirst_eq_none fenceOpen content h1 a (b ++ (fenceClose ++ c)) hd
    | some pr =>
      obtain ⟨u, w⟩ := pr
      cases h2 : splitFirst fenceClose w with
      | some qr => simp [extractFenced, h1, h2] at h
      | none =>
        have hcw := splitFirst_eq_some fenceOpen content u w h1
        have hmin := splitFirst_min fenceOpen content u w h1 a (b ++ (fenceClose ++ c)) hd
        have hdrop1 : content.drop (u.length + fenceOpen.length) = w := by
          rw [hcw, ← List.append_assoc, ← List.length_append]
          exact List.drop_left (u ++ fenceOpen) w
        have hdrop2 : content.drop (a.length + fenceOpen.length)
            = b ++ (fenceClose ++ c) := by
          rw [hd, ← List.append_assoc, ← List.length_append]
          exact List.drop_left (a ++ fenceOpen) (b ++ (fenceClose ++ c))
        have hw : w.drop (a.length - u.length) = b ++ (fenceClose ++ c) := by
          rw [← hdrop1, List.drop_drop]
          have hk : u.length + fenceOpen.length + (a.length - u.length)
              = a.length + fenceOpen.length := by omega
          rw [hk]
          exact hdrop2
        have hwdec : w = (w.take (a.length - u.length) ++ b) ++ (fenceClose ++ c) := by
          conv_lhs => rw [← List.take_append_drop (a.length - u.length) w]
          rw [hw, List.append_assoc]
        exact splitFirst_eq_none fenceClose w h2 _ c hwdec
  · intro hnex
    cases h1 : splitFirst fenceOpen content with
    | none => simp [extractFenced, h1]
    | some pr =>
      obtain ⟨u, w⟩ := pr
      cases h2 : splitFirst fenceClose w with
      | none => simp [extractFenced, h1, h2]
      | some qr =>
        exfalso
        apply hnex
        obtain ⟨m, e⟩ := qr
        have hcw := splitFirst_eq_some fenceOpen content u w h1
        have hwd := splitFirst_eq_some fenceClose w m e h2
        exact ⟨u, m, e, by rw [hcw, hwd]⟩

theorem processParsedQuiz_ne_invalid (j : Json) (stamps : Nat → Nat) :
    processParsedQuiz j stamps ≠ Except.error invalidFormatMsg := by
  intro h
  unfold processParsedQuiz at h
  split at h
  · split at h
    · split at h
      · injection h with h2
        exact absurd h2 (by decide)
      · exact Except.noConfusion h
    · injection h with h2
      exact absurd h2 (by decide)
  · injection h with h2
    exact absurd h2 (by decide)

/-! ## String extensionality helpers -/

theorem string_ext (a b : String) (h : a.data = b.data) : a = b := by
  cases a; cases h; rfl

theorem string_data_append (a b : String) : (a ++ b).data = a.data ++ b.data := rfl

theorem string_data_mk (l : List Char) : (String.mk l).data = l := rfl

/-! ## Sample data for witnesses -/

def sampleQ1 : QuizQuestion :=
  { id := ("q1"), title := ("Question 1"), description := (""), type := QType.courte }

def sampleQ2 : QuizQuestion :=
  { id := ("q2"), title := ("Question 2"), description := (""), type := QType.longue }

def sampleQ3 : QuizQuestion :=
  { id := ("q3"), title := ("Question 3"), description := (""), type := QType.note5 }

def sampleState : ComponentState :=
  { gptToken := ("tok"), pdfText := ("texte du cours"), pdfName := ("cours.pdf"),
    quizParams := { difficulty := Difficulty.facile, questionCount := 5 },
    questions := [sampleQ1, sampleQ2, sampleQ3],
    quizTitle := ("Mon Quiz Personnalisé"), loading := false }

/-! ## Claims -/

/-- C1, counterexample: the claim that a failing operation leaves every piece
of prior state unchanged is false for `handlePdfUpload` — the handler stores
the file name (line 186) before attempting the parse, so after a failing
parse `pdfName` holds the new file's name, not the prior one. -/
theorem c1_counterexample :
    (handlePdfUpload sampleState (some (("autre.pdf"), Except.error ()))).pdfName
      ≠ sampleState.pdfName := by
  decide

/-- C1, amended: on a parse failure `handlePdfUpload` leaves `pdfText`,
`questions`, `quizTitle`, `quizParams` and `gptToken` unchanged but sets
`pdfName` to the uploaded file's name; on a generation failure `generateQuiz`
leaves all six pieces of state unchanged (only `loading` is touched). -/
theorem c1_failure_frame (st : ComponentState) (nm : String) (msg : String) :
    ((handlePdfUpload st (some (nm, Except.error ()))).gptToken = st.gptToken
      ∧ (handlePdfUpload st (some (nm, Except.error ()))).pdfText = st.pdfText
      ∧ (handlePdfUpload st (some (nm, Except.error ()))).quizParams = st.quizParams
      ∧ (handlePdfUpload st (some (nm, Except.error ()))).questions = st.questions
      ∧ (handlePdfUpload st (some (nm, Except.error ()))).quizTitle = st.quizTitle
      ∧ (handlePdfUpload st (some (nm, Except.error ()))).pdfName = nm)
    ∧ ((generateQuiz st (Except.error msg)).gptToken = st.gptToken
      ∧ (generateQuiz st (Except.error msg)).pdfText = st.pdfText
      ∧ (generateQuiz st (Except.error msg)).pdfName = st.pdfName
      ∧ (generateQuiz st (Except.error msg)).quizParams = st.quizParams
      ∧ (generateQuiz st (Except.error msg)).questions = st.questions
      ∧ (generateQuiz st (Except.error msg)).quizTitle = st.quizTitle) := by
  constructor
  · simp [handlePdfUpload]
  · unfold generateQuiz
    split
    · simp
    · simp

/-- C2, counterexample: identifier uniqueness is not unconditional — two
manual adds in the same millisecond whose `Math.random` draws render to the
same 9-character suffix stamp the same id twice. -/
theorem c2_counterexample :
    ¬ (idsOf (runOps [QuizOp.add 1 ("aaaaaaaaa"),
        QuizOp.add 1 ("aaaaaaaaa")])).Nodup := by
  decide

/-- C2, amended: starting from the empty list, after any sequence of manual
adds, deletes, field edits, drag reorders and successful generations, the
question ids are pairwise distinct provided each manual add drew a
clock/random stamp whose id is not already in the list (ids restamped by a
generation are distinct among themselves unconditionally). -/
theorem c2_ids_nodup_of_fresh_adds (ops : List QuizOp)
    (h : freshAdds [] ops = true) :
    (idsOf (runOps ops)).Nodup := by
  unfold runOps
  exact freshAdds_run ops [] (by simp [idsOf]) h

/-- C2, witness: a concrete trace mixing a manual add, a generation, another
manual add and a drag, whose adds are fresh, ends with pairwise-distinct
ids. -/
theorem c2_witness :
    freshAdds [] [QuizOp.add 1 ("ab"),
        QuizOp.generate [sampleQ1, sampleQ2] (fun i => i + 3),
        QuizOp.add 2 ("zz"), QuizOp.drag 0 (some 2)] = true
      ∧ (idsOf (runOps [QuizOp.add 1 ("ab"),
          QuizOp.generate [sampleQ1, sampleQ2] (fun i => i + 3),
          QuizOp.add 2 ("zz"), QuizOp.drag 0 (some 2)])).Nodup :=
  ⟨by decide, c2_ids_nodup_of_fresh_adds _ (by decide)⟩

/-- C3, code bug: a parsed object with a `title` but no `questions` field is
rejected with the malformed-JSON message, not the missing-required-fields
message the validation (and the spec) intends: the restamping map runs
before the validation, inside the `try`, and `undefined.map` throws a
`TypeError` that the `catch` converts into the malformed-JSON error.  The
`!Array.isArray(quiz.questions)` disjunct of the validation is unreachable
for this case. -/
theorem c3_missing_questions_yields_malformed_error :
    processParsedQuiz (Json.obj [(("title"), Json.str ("T"))]) (fun _ => 0)
        = Except.error malformedMsg
      ∧ malformedMsg ≠ missingFieldsMsg :=
  ⟨rfl, by decide⟩

/-- C4, counterexample: the input string of a negative number is stored
as-is: `parseInt` yields a negative integer, which is truthy, so the
`|| 5` default does not replace it and `questionCount` is not positive. -/
theorem c4_counterexample :
    handleQuestionCountChange ("-3") = -3
      ∧ ¬ (0 < handleQuestionCountChange ("-3")) := by
  constructor <;> decide

/-- C4, amended: the stored `questionCount` is a nonzero integer: an input
whose parse yields `NaN` or `0` is replaced by the default 5, and any other
parsed value — including negative ones — is stored unchanged. -/
theorem c4_question_count_nonzero (s : String) :
    handleQuestionCountChange s ≠ 0
      ∧ (jsParseIntTen s = none → handleQuestionCountChange s = 5)
      ∧ (jsParseIntTen s = some 0 → handleQuestionCountChange s = 5)
      ∧ (∀ v : Int, jsParseIntTen s = some v → v ≠ 0 →
          handleQuestionCountChange s = v) := by
  cases h : jsParseIntTen s with
  | none =>
    refine ⟨by simp [handleQuestionCountChange, h], fun _ => by
      simp [handleQuestionCountChange, h], fun hc => ?_, fun v hv => ?_⟩
    · exact Option.noConfusion hc
    · exact fun _ => Option.noConfusion hv
  | some w =>
    by_cases hz : w = 0
    · subst hz
      refine ⟨by simp [handleQuestionCountChange, h], fun hc => ?_,
        fun _ => by simp [handleQuestionCountChange, h], fun v hv hvne => ?_⟩
      · exact Option.noConfusion hc
      · have : (0 : Int) = v := Option.some_inj.mp hv
        exact absurd this.symm hvne
    · refine ⟨by simp [handleQuestionCountChange, h, hz], fun hc => ?_,
        fun hc => ?_, fun v hv hvne => ?_⟩
      · exact Option.noConfusion hc
      · exact absurd (Option.some_inj.mp hc) hz
      · have hwv : w = v := Option.some_inj.mp hv
        subst hwv
        simp [handleQuestionCountChange, h, hz]

/-- C4, witness: the amended theorem at the concrete input of a negative
number. -/
theorem c4_witness :
    jsParseIntTen ("-3") = some (-3) ∧ ((-3 : Int) ≠ 0)
      ∧ handleQuestionCountChange ("-3") = -3 :=
  ⟨by decide, by decide,
    (c4_question_count_nonzero ("-3")).2.2.2 (-3) (by decide) (by decide)⟩

/-- C5: for valid indices, `reorder` equals removing the element at the
source index and reinserting that same element at the destination index; in
particular the result has the same length and is a permutation of the input
(same multiset of elements). -/
theorem c5_reorder_remove_reinsert (l : List QuizQuestion) (s e : Nat)
    (hs : s < l.length) (he : e < l.length) :
    reorder l s e = List.insertIdx e (l.get ⟨s, hs⟩) (l.eraseIdx s)
      ∧ (reorder l s e).length = l.length
      ∧ List.Perm (reorder l s e) l := by
  have hx : l[s]? = some (l.get ⟨s, hs⟩) := by
    rw [List.getElem?_eq_getElem hs, List.get_eq_getElem]
  refine ⟨?_, (reorder_perm l s e).length_eq, reorder_perm l s e⟩
  have hre : reorder l s e = spliceInsert (spliceRemove l s) e (l.get ⟨s, hs⟩) := by
    unfold reorder
    rw [hx]
  have hle : e ≤ (l.eraseIdx s).length := by
    rw [List.length_eraseIdx]
    simp only [hs, if_true]
    omega
  rw [hre, insertIdx_eq_take_cons_drop _ e _ hle]
  unfold spliceInsert spliceRemove
  rw [List.eraseIdx_eq_take_drop_succ]

/-- C5, witness: the theorem applied to a concrete three-question list with
source index 0 and destination index 2. -/
theorem c5_witness :
    (0 < ([sampleQ1, sampleQ2, sampleQ3] : List QuizQuestion).length)
      ∧ (reorder [sampleQ1, sampleQ2, sampleQ3] 0 2).length
          = ([sampleQ1, sampleQ2, sampleQ3] : List QuizQuestion).length
      ∧ List.Perm (reorder [sampleQ1, sampleQ2, sampleQ3] 0 2)
          [sampleQ1, sampleQ2, sampleQ3] :=
  ⟨by decide,
    (c5_reorder_remove_reinsert [sampleQ1, sampleQ2, sampleQ3] 0 2
      (by decide) (by decide)).2.1,
    (c5_reorder_remove_reinsert [sampleQ1, sampleQ2, sampleQ3] 0 2
      (by decide) (by decide)).2.2⟩

/-- C6: the processing of a reply's message content throws the
invalid-format error exactly when the content contains no substring of the
shape of the fenced-JSON pattern — an opening fence, any characters, a
closing fence. -/
theorem c6_format_error_iff_no_fenced_block (content : String)
    (parse : String → Option Json) (stamps : Nat → Nat) :
    generateQuizFromContent content parse stamps = Except.error invalidFormatMsg
      ↔ ¬ ∃ pre mid post : String,
          content = pre ++ String.mk fenceOpen ++ mid ++ String.mk fenceClose ++ post := by
  constructor
  · intro h hex
    obtain ⟨pre, mid, post, hdec⟩ := hex
    have hdata : content.data
        = pre.data ++ (fenceOpen ++ (mid.data ++ (fenceClose ++ post.data))) := by
      have hc := congrArg String.data hdec
      simpa [string_data_append, string_data_mk, List.append_assoc] using hc
    cases hf : extractFenced content.data with
    | some m =>
      cases hp : parse (String.mk m) with
      | none =>
        simp [generateQuizFromContent, hf, hp] at h
        exact absurd h (by decide)
      | some j =>
        simp [generateQuizFromContent, hf, hp] at h
        exact processParsedQuiz_ne_invalid j stamps h
    | none =>
      exact (extractFenced_none_iff content.data).mp hf
        ⟨pre.data, mid.data, post.data, hdata⟩
  · intro hnex
    cases hf : extractFenced content.data with
    | none => simp [generateQuizFromContent, hf]
    | some m =>
      exfalso
      apply hnex
      obtain ⟨a, c, hdec⟩ := extractFenced_some_decomp content.data m hf
      refine ⟨String.mk a, String.mk m, String.mk c, ?_⟩
      apply string_ext
      simp only [string_data_append, string_data_mk, List.append_assoc]
      exact hdec

/-- C7: for every successfully parsed document, `parsePdf` resolves — never
rejects — with the concatenation, page by page in order, of each page's
items joined by single spaces and trimmed, each page followed by a newline;
in particular a document whose extracted text is empty still resolves. -/
theorem c7_parsePdf_page_concatenation (pages : List (List String)) :
    parsePdfResult pages
      = Except.ok (String.join (pages.map (fun p => pageText p ++ ("\n")))) := by
  unfold parsePdfResult
  congr 1
  unfold extractedPdfText
  rw [extractedPdfText_acc pages ("")]
  exact String.empty_append _

/-- C8: the store-level `reorder` never writes to the array it was given:
it allocates a fresh array for `Array.from(list)`, splices only that fresh
array, and returns its reference, so after the call the input array holds
exactly its prior contents. -/
theorem c8_reorder_input_not_mutated (σ : List (List QuizQuestion)) (a s e : Nat)
    (h : a < σ.length) :
    readArr (reorderOnHeap σ a s e).1 a = readArr σ a
      ∧ (reorderOnHeap σ a s e).2 ≠ a := by
  have hne : ¬ (σ.length = a) := by omega
  constructor
  · simp only [reorderOnHeap]
    split
    · unfold readArr writeArr
      rw [List.getElem?_set_ne hne, List.getElem?_set_ne hne,
        List.getElem?_append_left h]
    · unfold readArr writeArr
      rw [List.getElem?_set_ne hne, List.getElem?_append_left h]
  · exact hne

/-- C8, witness: the theorem applied to a one-array store. -/
theorem c8_witness :
    (0 < ([[sampleQ1, sampleQ2]] : List (List QuizQuestion)).length)
      ∧ readArr (reorderOnHeap [[sampleQ1, sampleQ2]] 0 0 1).1 0
          = readArr [[sampleQ1, sampleQ2]] 0
      ∧ (reorderOnHeap [[sampleQ1, sampleQ2]] 0 0 1).2 ≠ 0 :=
  ⟨by decide,
    (c8_reorder_input_not_mutated [[sampleQ1, sampleQ2]] 0 0 1 (by decide)).1,
    (c8_reorder_input_not_mutated [[sampleQ1, sampleQ2]] 0 0 1 (by decide)).2⟩

/-- C9, counterexample: a parsed response whose `title` is present but empty
and whose `questions` field is absent is rejected with the malformed-JSON
error (the restamping map throws first), not with the
missing-required-fields error, so the claim does not hold for every parsed
response with an empty title. -/
theorem c9_counterexample :
    processParsedQuiz (Json.obj [(("title"), Json.str (""))]) (fun _ => 0)
        = Except.error malformedMsg
      ∧ malformedMsg ≠ missingFieldsMsg :=
  ⟨rfl, by decide⟩

/-- C9, amended: a parsed response whose `title` field is the empty string
and whose `questions` field holds an array is rejected with the
missing-required-fields error, because the validation uses the falsiness
check `!quiz.title` and the empty string is falsy. -/
theorem c9_empty_title_rejected (fs : List (String × Json)) (stamps : Nat → Nat)
    (xs : List Json)
    (ht : lookupField fs ("title") = some (Json.str ("")))
    (hq : lookupField fs ("questions") = some (Json.arr xs)) :
    processParsedQuiz (Json.obj fs) stamps = Except.error missingFieldsMsg := by
  have htitle : lookupField
      (fs ++ [(("questions"), Json.arr (restampQuestions stamps 0 xs))]) ("title")
      = some (Json.str ("")) := by
    rw [lookupField_append_single_ne _ _ _ (by decide) fs, ht]
  simp [processParsedQuiz, hq, htitle, jsFalsy]

/-- C9, witness: the amended theorem at a concrete response with an empty
title and an empty questions array. -/
theorem c9_witness :
    lookupField [(("title"), Json.str ("")), (("questions"), Json.arr [])] ("title")
        = some (Json.str (""))
      ∧ processParsedQuiz
          (Json.obj [(("title"), Json.str ("")), (("questions"), Json.arr [])])
          (fun _ => 0)
        = Except.error missingFieldsMsg :=
  ⟨rfl, c9_empty_title_rejected
    [(("title"), Json.str ("")), (("questions"), Json.arr [])] (fun _ => 0) []
    rfl rfl⟩

/-- C10: a drag result with no destination leaves the component state — in
particular the questions list — unchanged: `onDragEnd` returns before any
splice. -/
theorem c10_drop_outside_keeps_questions (st : ComponentState) (res : DropResult)
    (h : res.destination = none) :
    (onDragEnd st res).questions = st.questions := by
  unfold onDragEnd
  rw [h]

/-- C10, witness: the theorem at a concrete state and a destination-free
drop result. -/
theorem c10_witness :
    ({ sourceIndex := 1, destination := none } : DropResult).destination = none
      ∧ (onDragEnd sampleState { sourceIndex := 1, destination := none }).questions
          = sampleState.questions :=
  ⟨rfl, c10_drop_outside_keeps_questions sampleState
    { sourceIndex := 1, destination := none } rfl⟩
